import Mathlib

/-!
Shallow embedding of the incremental change-detection engine of the
static-pages file reader (src/incremental-helper.ts).  External
capabilities (the filesystem, glob matching, micromatch, the git
subprocess, the system clock) are modelled as an explicit environment
record; the class methods become pure functions over that record.
Timestamps are naturals (milliseconds since the epoch); the persisted
state file is an association list from keys to marker strings.
-/

namespace StaticPages

/-- Change-detection strategy: the value of the `strategy` option after
validation (time or git). -/
inductive Strategy
  | time
  | git
deriving DecidableEq, Repr

/-- A validated trigger rule: either a `[string, string]` pair
(source pattern, target pattern) or a single pattern string. -/
inductive Trigger
  | pair (source target : String)
  | single (pattern : String)
deriving DecidableEq, Repr

/-- The on-disk status file as the embedding sees it: absent, present but
not valid JSON (JSON.parse throws), or parsed to a key-to-marker map. -/
inductive StateFile
  | absent
  | corrupt
  | ok (data : List (String × String))
deriving DecidableEq, Repr

/-- Errors thrown by the engine: a present but unparsable state file
(JSON.parse throwing), or a git diff answering with a leading
"fatal:" because the persisted commit hash is not a valid revision. -/
inductive Err
  | stateCorruption
  | invalidReference (hash : String)
deriving DecidableEq, Repr

/-- Construction-time errors: the TypeErrors of the option validation and
the two environment probes of the git tooling. -/
inductive CtorError
  | keyType
  | fileType
  | strategyType
  | unknownStrategy
  | gitNotInstalled
  | notARepository
  | triggersType
  | triggersCwdType
deriving DecidableEq, Repr

/-- A JavaScript option value, as far as the typeof and Array.isArray
probing of the constructor distinguishes shapes. -/
inductive JSVal
  | str (s : String)
  | num (n : Int)
  | boolean (b : Bool)
  | func
  | arr (elems : List JSVal)
  | undef

/-- The raw (unvalidated) options object handed to the constructor. -/
structure RawOptions where
  key : JSVal
  file : JSVal
  strategy : JSVal
  triggers : JSVal
  triggersCwd : JSVal

/-- The external world as the engine observes it: the state file at each
path, file modification times, the micromatch test (with the fixed
nocase/windows options baked in), glob.sync, path.join, Date parsing and
serialization, the git subprocess answers, process.cwd() and the clock. -/
structure Env where
  stateOf : String → StateFile
  mtime : String → Nat
  isMatch : String → String → Bool
  globSync : String → List String
  pathJoin : String → String → String
  parseDate : String → Nat
  dateToJson : Nat → String
  gitNoArgs : String
  gitShowToplevel : String
  gitHead : String
  gitDiff : String → String
  processCwd : String
  now : Nat

/-- The validated helper object: the private fields set at the end of the
constructor. -/
structure Helper where
  file : String
  key : String
  strategy : Strategy
  triggers : List Trigger
  triggersCwd : String
  startedAt : Nat
deriving DecidableEq, Repr

/-- Reading the status file: a missing file yields the empty object, a
present file goes through JSON.parse, whose failure propagates. -/
def loadState : StateFile → Except Err (List (String × String))
  | .absent => .ok []
  | .corrupt => .error .stateCorruption
  | .ok data => .ok data

/-- Property lookup on the parsed status object. -/
def lookup (m : List (String × String)) (k : String) : Option String :=
  (m.find? (fun e => e.1 = k)).map (fun e => e.2)

/-- statusData[key] used as a condition: undefined and the empty string
are falsy, any other string is truthy. -/
def lookupTruthy (m : List (String × String)) (k : String) : Option String :=
  match lookup m k with
  | some s => if s = "" then none else some s
  | none => none

/-- Property assignment data[key] = v on the parsed status object:
replaces the existing binding in place or appends a new one. -/
def setKey (m : List (String × String)) (k v : String) : List (String × String) :=
  match m with
  | [] => [(k, v)]
  | e :: rest => if e.1 = k then (k, v) :: rest else e :: setKey rest k v

/-- String prefix test over the character list (the semantics of the
JavaScript startsWith used on the git subprocess answers). -/
def strStartsWith (s p : String) : Bool :=
  p.data.isPrefixOf s.data

/-- The .replace regex turning every backslash into a forward slash. -/
def slashify (s : String) : String :=
  ⟨s.data.map (fun c => if c = '\\' then '/' else c)⟩

/-- addCwd of filter(): path.join(triggersCwd, x) with backslashes
normalized to forward slashes. -/
def addCwd (env : Env) (cwd x : String) : String :=
  slashify (env.pathJoin cwd x)

/-- Pushing a target pattern onto the record entry of a source pattern,
creating the entry at the end on first sight (JS object insertion order). -/
def addSome (m : List (String × List String)) (src tgt : String) :
    List (String × List String) :=
  match m with
  | [] => [(src, [tgt])]
  | (s, ts) :: rest =>
    if s = src then (s, ts ++ [tgt]) :: rest
    else (s, ts) :: addSome rest src tgt

/-- Adding a pattern to the triggerAll set (insertion-ordered, no
duplicates). -/
def addAll (l : List String) (p : String) : List String :=
  if p ∈ l then l else l ++ [p]

/-- The trigger preprocessing loop of filter(): pair triggers land in the
triggerSome record keyed by their cwd-joined source, string triggers in
the triggerAll set. -/
def buildTriggers (env : Env) (cwd : String) (trs : List Trigger) :
    List (String × List String) × List String :=
  trs.foldl
    (fun acc tr =>
      match tr with
      | .pair s t => (addSome acc.1 (addCwd env cwd s) (addCwd env cwd t), acc.2)
      | .single p => (acc.1, addAll acc.2 (addCwd env cwd p)))
    ([], [])

/-- Splitting a character list at every newline (the split on the
newline separator; the pieces keep no separator). -/
def splitNL (cs : List Char) (acc : List Char) : List (List Char) :=
  match cs with
  | [] => [acc.reverse]
  | c :: rest =>
    if c = '\n' then acc.reverse :: splitNL rest []
    else splitNL rest (c :: acc)

/-- Dropping one carriage return at the end of a line piece that was
followed by a newline (the optional carriage return of the split
regex). -/
def stripCR (l : List Char) : List Char :=
  if l.getLast? = some '\r' then l.dropLast else l

/-- The split on the regex matching an optional carriage return followed
by a newline: every piece but the last had a newline after it and loses
one trailing carriage return. -/
def splitGitLines (s : String) : List String :=
  match (splitNL s.data []).reverse with
  | [] => []
  | last :: rest => ((rest.map stripCR).reverse ++ [last]).map (fun cs => ⟨cs⟩)

/-- getGitChangesSince: runs git diff --name-only hash..HEAD; a leading
"fatal:" in the answer means the hash is not a valid revision and throws;
otherwise the output splits into lines. -/
def getGitChangesSince (env : Env) (commitHash : String) :
    Except Err (List String) :=
  let changes := env.gitDiff commitHash
  if strStartsWith changes "fatal:" then .error (.invalidReference commitHash)
  else .ok (splitGitLines changes)

/-- micromatch.some(paths, patterns): some path matches some pattern. -/
def mmSome (env : Env) (paths patterns : List String) : Bool :=
  paths.any (fun p => patterns.any (fun pat => env.isMatch p pat))

/-- micromatch(files, patterns): the files matching any of the patterns,
in their original order. -/
def mmFilter (env : Env) (files patterns : List String) : List String :=
  files.filter (fun f => patterns.any (fun pat => env.isMatch f pat))

/-- The time-strategy triggerAll scan: some all-activating pattern globs
to a file modified after the last build time (the source returns the
whole candidate list as soon as one is found). -/
def timeAllFired (env : Env) (triggerAll : List String) (lastBuildTime : Nat) : Bool :=
  triggerAll.any (fun pattern =>
    (env.globSync pattern).any (fun file => lastBuildTime < env.mtime file))

/-- One globbed source file of the time-strategy triggerSome loop: a
modified file matches the candidates against the target patterns not yet
seen and marks all targets of the entry as seen.  The state carries the
triggered set and the pattern cache (sets modelled as lists, membership
is all that is consumed). -/
def timeSomeStep (env : Env) (files : List String) (lastBuildTime : Nat)
    (targetPatterns : List String) (st : List String × List String)
    (file : String) : List String × List String :=
  let triggered := st.1
  let patternCache := st.2
  if lastBuildTime < env.mtime file then
    let unvisited := targetPatterns.filter (fun t => ¬ t ∈ patternCache)
    if unvisited ≠ [] then
      (triggered ++ mmFilter env files unvisited, patternCache ++ targetPatterns)
    else (triggered, patternCache)
  else (triggered, patternCache)

/-- The full time-strategy triggerSome loop over the deduplicated source
entries, yielding the triggered set.  The mtime cache of the source is
pure memoization of env.mtime and leaves no trace in the embedding. -/
def timeTriggered (env : Env) (files : List String) (lastBuildTime : Nat)
    (entries : List (String × List String)) : List String :=
  (entries.foldl
    (fun st e => (env.globSync e.1).foldl (timeSomeStep env files lastBuildTime e.2) st)
    ([], [])).1

/-- The git-strategy triggerSome loop: every entry whose source pattern
matches some changed path contributes the candidates matching its target
patterns. -/
def gitTriggered (env : Env) (files changes : List String)
    (entries : List (String × List String)) : List String :=
  entries.foldl
    (fun acc e =>
      if changes.any (fun c => env.isMatch c e.1) then
        acc ++ mmFilter env files e.2
      else acc)
    []

/-- IncrementalHelper.filter: loads the status file, preprocesses the
triggers, then runs the strategy; without a truthy marker for the key
both strategies fall through to returning the input unfiltered. -/
def Helper.filterFiles (env : Env) (h : Helper) (files : List String) :
    Except Err (List String) :=
  match loadState (env.stateOf h.file) with
  | .error e => .error e
  | .ok statusData =>
    let tr := buildTriggers env h.triggersCwd h.triggers
    match h.strategy with
    | .time =>
      match lookupTruthy statusData h.key with
      | some marker =>
        let lastBuildTime := env.parseDate marker
        if timeAllFired env tr.2 lastBuildTime then .ok files
        else
          let triggered := timeTriggered env files lastBuildTime tr.1
          .ok (files.filter (fun x =>
            decide (lastBuildTime < env.mtime x) || decide (x ∈ triggered)))
      | none => .ok files
    | .git =>
      match lookupTruthy statusData h.key with
      | some commitHash =>
        match getGitChangesSince env commitHash with
        | .error e => .error e
        | .ok rawChanges =>
          let gitBaseDir := env.gitShowToplevel
          let changes := rawChanges.map (fun x => gitBaseDir ++ "/" ++ x)
          if mmSome env changes tr.2 then .ok files
          else
            let triggered := gitTriggered env files changes tr.1
            .ok (files.filter (fun x =>
              decide (x ∈ changes) || decide (x ∈ triggered)))
      | none => .ok files

/-- IncrementalHelper.close: re-reads the status file, overwrites the
entry of the own key (construction instant for time, git HEAD) and writes
the whole object back; the value is the mapping written to disk. -/
def Helper.closeData (env : Env) (h : Helper) :
    Except Err (List (String × String)) :=
  match loadState (env.stateOf h.file) with
  | .error e => .error e
  | .ok data =>
    match h.strategy with
    | .time => .ok (setKey data h.key (env.dateToJson h.startedAt))
    | .git => .ok (setKey data h.key env.gitHead)

/-- filter() as a state transformer over the environment: its body only
reads (existsSync, readFileSync, statSync, glob.sync, read-only git
queries), so the environment comes back unchanged. -/
def Helper.filterRun (env : Env) (h : Helper) (files : List String) :
    Except Err (List String) × Env :=
  (Helper.filterFiles env h files, env)

/-- close() as a state transformer over the environment: on success the
state file at the path of the helper now parses to the written mapping. -/
def Helper.closeRun (env : Env) (h : Helper) : Except Err Unit × Env :=
  match Helper.closeData env h with
  | .ok newData =>
    (.ok (),
      { env with stateOf := fun p => if p = h.file then .ok newData else env.stateOf p })
  | .error e => (.error e, env)

/-- Tests typeof x for the string shape. -/
def isString : JSVal → Bool
  | .str _ => true
  | _ => false

/-- Tests typeof x for the undefined shape. -/
def isUndef : JSVal → Bool
  | .undef => true
  | _ => false

/-- Array.isArray(x). -/
def isArr : JSVal → Bool
  | .arr _ => true
  | _ => false

/-- The elements of an array value (empty for non-arrays). -/
def arrElems : JSVal → List JSVal
  | .arr xs => xs
  | _ => []

/-- The payload of a string value (empty for non-strings). -/
def strVal : JSVal → String
  | .str s => s
  | _ => ""

/-- The trigger element test of the constructor: not a two-element
array and also not a string. -/
def badTriggerElem (x : JSVal) : Bool :=
  (!(isArr x) || !((arrElems x).length == 2)) && !(isString x)

/-- Conversion of a validated trigger element into the tagged form the
filter dispatches on with Array.isArray. -/
def toTrigger (x : JSVal) : Trigger :=
  match x with
  | .arr (a :: b :: _) => .pair (strVal a) (strVal b)
  | .str s => .single s
  | _ => .single ""

/-- The IncrementalHelper constructor: option validation in source order,
the git probes inside the strategy block, then field assignment with the
defaulting of file, strategy, triggers and triggersCwd.  startedAt is the
field initializer new Date() evaluated at construction. -/
def construct (env : Env) (o : RawOptions) : Except CtorError Helper :=
  if !(isString o.key) then .error .keyType
  else if !(isUndef o.file) && !(isString o.file) then .error .fileType
  else if !(isUndef o.strategy) && !(isString o.strategy) then .error .strategyType
  else if !(isUndef o.strategy) &&
      !(strVal o.strategy == "git" || strVal o.strategy == "time") then
    .error .unknownStrategy
  else if !(isUndef o.strategy) && !(strStartsWith env.gitNoArgs "usage:") then
    .error .gitNotInstalled
  else if !(isUndef o.strategy) && strStartsWith env.gitShowToplevel "fatal:" then
    .error .notARepository
  else if !(isUndef o.triggers) &&
      (!(isArr o.triggers) || (arrElems o.triggers).any badTriggerElem) then
    .error .triggersType
  else if !(isUndef o.triggersCwd) && !(isString o.triggersCwd) then
    .error .triggersCwdType
  else
    .ok
      { key := strVal o.key
        file := if isUndef o.file then ".incremental" else strVal o.file
        strategy :=
          if isUndef o.strategy then .time
          else if strVal o.strategy == "git" then .git else .time
        triggers := (arrElems o.triggers).map toTrigger
        triggersCwd := if isUndef o.triggersCwd then env.processCwd else strVal o.triggersCwd
        startedAt := env.now }

/-- A trivial concrete environment used to instantiate theorems at
concrete inputs: absent state file, zero mtimes, no matches. -/
def env0 : Env :=
  { stateOf := fun _ => .absent
    mtime := fun _ => 0
    isMatch := fun _ _ => false
    globSync := fun _ => []
    pathJoin := fun a b => a ++ "/" ++ b
    parseDate := fun _ => 0
    dateToJson := fun n => toString n
    gitNoArgs := "usage: git"
    gitShowToplevel := "/repo"
    gitHead := "headhash"
    gitDiff := fun _ => ""
    processCwd := "/repo"
    now := 5 }

/-- A concrete helper used to instantiate theorems at concrete inputs. -/
def helper0 : Helper :=
  { file := ".incremental"
    key := "k"
    strategy := .git
    triggers := [.single "p", .pair "s" "t"]
    triggersCwd := "/repo"
    startedAt := 5 }

theorem lookupTruthy_of_lookup_none (m : List (String × String)) (k : String)
    (h : lookup m k = none) : lookupTruthy m k = none := by
  simp [lookupTruthy, h]

theorem lookup_setKey_self (m : List (String × String)) (k v : String) :
    lookup (setKey m k v) k = some v := by
  induction m with
  | nil => simp [setKey, lookup]
  | cons e rest ih =>
    by_cases he : e.1 = k
    · simp [setKey, he, lookup]
    · simpa [setKey, he, lookup, List.find?] using ih

theorem lookup_setKey_ne (m : List (String × String)) (k v k2 : String)
    (h : k2 ≠ k) : lookup (setKey m k v) k2 = lookup m k2 := by
  induction m with
  | nil => simp [setKey, lookup, List.find?, Ne.symm h]
  | cons e rest ih =>
    by_cases he : e.1 = k
    · have hk2 : k ≠ k2 := Ne.symm h
      have he2 : e.1 ≠ k2 := by rw [he]; exact hk2
      simp [setKey, he, lookup, List.find?, hk2, he2]
    · by_cases he2 : e.1 = k2
      · simp [setKey, he, lookup, List.find?, he2, h]
      · simp only [setKey, he, if_false, lookup, List.find?, he2]
        simpa [lookup] using ih

/-- Without a truthy marker for the configured key, both strategy
branches fall through and filter returns the candidates unchanged. -/
theorem filterFiles_of_no_marker (env : Env) (h : Helper) (files : List String)
    (hmark : env.stateOf h.file = .absent ∨
      ∃ m, env.stateOf h.file = .ok m ∧ lookupTruthy m h.key = none) :
    Helper.filterFiles env h files = .ok files := by
  unfold Helper.filterFiles
  rcases hmark with hab | ⟨m, hok, hnone⟩
  · rw [hab]
    cases h.strategy <;> simp [loadState, lookupTruthy, lookup]
  · rw [hok]
    cases h.strategy <;> simp [loadState, hnone]

/-- A concrete environment whose state file is present but unparsable. -/
def envCorrupt : Env :=
  { env0 with stateOf := fun _ => .corrupt }

/-- A concrete environment with a marker for key "k" and a git diff
answering with a fatal message. -/
def envFatal : Env :=
  { env0 with
    stateOf := fun _ => .ok [("k", "abc")]
    gitDiff := fun _ => "fatal: bad revision" }

/-- A concrete environment with a state mapping holding two keys. -/
def envTwoKeys : Env :=
  { env0 with stateOf := fun _ => .ok [("b", "x"), ("k", "old")] }

/-- C1: if the persisted state mapping has no entry for the configured
key, or the state file is absent, then filter returns the candidate list
unchanged, for both strategies and regardless of the trigger rules. -/
theorem filter_identity_of_absent_marker (env : Env) (h : Helper) (files : List String)
    (hmark : env.stateOf h.file = .absent ∨
      ∃ m, env.stateOf h.file = .ok m ∧ lookup m h.key = none) :
    Helper.filterFiles env h files = .ok files := by
  apply filterFiles_of_no_marker
  rcases hmark with hab | ⟨m, hok, hnone⟩
  · exact Or.inl hab
  · exact Or.inr ⟨m, hok, lookupTruthy_of_lookup_none m h.key hnone⟩

/-- Witness for C1 at a concrete environment without a state file. -/
theorem filter_identity_of_absent_marker_witness :
    Helper.filterFiles env0 helper0 ["a", "b"] = .ok ["a", "b"] :=
  filter_identity_of_absent_marker env0 helper0 ["a", "b"] (Or.inl rfl)

/-- C10: a missing state file loads as the empty mapping and the run
proceeds as a first run (filter is the identity), while a present but
unparsable state file makes filter and close abort with the
state-corruption error rather than treating the content as empty. -/
theorem state_load_missing_vs_corrupt (env : Env) (h : Helper) (files : List String) :
    (env.stateOf h.file = .absent →
      loadState (env.stateOf h.file) = .ok [] ∧
      Helper.filterFiles env h files = .ok files) ∧
    (env.stateOf h.file = .corrupt →
      Helper.filterFiles env h files = .error .stateCorruption ∧
      Helper.closeData env h = .error .stateCorruption) := by
  constructor
  · intro hab
    exact ⟨by rw [hab]; rfl, filterFiles_of_no_marker env h files (Or.inl hab)⟩
  · intro hcor
    constructor
    · unfold Helper.filterFiles
      rw [hcor]
      rfl
    · unfold Helper.closeData
      rw [hcor]
      rfl

/-- Witness for C10: absent and corrupt state files at concrete inputs. -/
theorem state_load_missing_vs_corrupt_witness :
    (loadState (env0.stateOf helper0.file) = .ok [] ∧
      Helper.filterFiles env0 helper0 ["a"] = .ok ["a"]) ∧
    (Helper.filterFiles envCorrupt helper0 ["a"] = .error .stateCorruption ∧
      Helper.closeData envCorrupt helper0 = .error .stateCorruption) :=
  ⟨(state_load_missing_vs_corrupt env0 helper0 ["a"]).1 rfl,
    (state_load_missing_vs_corrupt envCorrupt helper0 ["a"]).2 rfl⟩

/-- C4: under the git strategy, a persisted marker that the git diff
answers with a leading "fatal:" makes filter abort with the
invalid-reference error; the run yields no file list at all, so an
invalid marker is never treated as everything changed or nothing
changed. -/
theorem git_invalid_marker_raises (env : Env) (h : Helper) (files : List String)
    (m : List (String × String)) (marker : String)
    (hstrat : h.strategy = .git)
    (hstate : env.stateOf h.file = .ok m)
    (hmark : lookupTruthy m h.key = some marker)
    (hfatal : strStartsWith (env.gitDiff marker) "fatal:" = true) :
    Helper.filterFiles env h files = .error (.invalidReference marker) := by
  unfold Helper.filterFiles
  rw [hstate, hstrat]
  simp [loadState, hmark, getGitChangesSince, hfatal]

/-- Witness for C4 at a concrete fatal-answering environment. -/
theorem git_invalid_marker_raises_witness :
    Helper.filterFiles envFatal helper0 ["x"] = .error (.invalidReference "abc") :=
  git_invalid_marker_raises envFatal helper0 ["x"] [("k", "abc")] "abc"
    rfl rfl (by decide) (by decide)

/-- C6: close() overwrites only the entry of its own key in the
persisted mapping: the binding of every other key afterwards equals its
binding before the call, for both strategies. -/
theorem close_preserves_other_keys (env : Env) (h : Helper)
    (m : List (String × String)) (k2 : String)
    (hstate : env.stateOf h.file = .ok m) (hne : k2 ≠ h.key) :
    ∃ newData, Helper.closeData env h = .ok newData ∧
      lookup newData k2 = lookup m k2 := by
  unfold Helper.closeData
  rw [hstate]
  cases hs : h.strategy
  · exact ⟨_, rfl, lookup_setKey_ne m h.key _ k2 hne⟩
  · exact ⟨_, rfl, lookup_setKey_ne m h.key _ k2 hne⟩

/-- Witness for C6: the entry for "b" survives a close() for key "k". -/
theorem close_preserves_other_keys_witness :
    ∃ newData, Helper.closeData envTwoKeys helper0 = .ok newData ∧
      lookup newData "b" = lookup [("b", "x"), ("k", "old")] "b" :=
  close_preserves_other_keys envTwoKeys helper0 [("b", "x"), ("k", "old")] "b"
    rfl (by decide)

/-- C9: filter is a pure function of the external state and the
candidates: its body only reads, so the environment comes back unchanged,
and an immediately repeated call on the resulting environment yields the
identical result. -/
theorem filter_pure_and_idempotent (env : Env) (h : Helper) (files : List String) :
    (Helper.filterRun env h files).2 = env ∧
    (Helper.filterRun (Helper.filterRun env h files).2 h files).1 =
      (Helper.filterRun env h files).1 :=
  ⟨rfl, rfl⟩

/-- A concrete options object requesting the git strategy. -/
def gitOpts : RawOptions :=
  { key := .str "k"
    file := .undef
    strategy := .str "git"
    triggers := .undef
    triggersCwd := .undef }

/-- A concrete environment where bare git does not answer with usage. -/
def envNoGit : Env :=
  { env0 with gitNoArgs := "command not found" }

/-- A concrete environment where git answers but rev-parse
--show-toplevel answers with a fatal message. -/
def envNoRepo : Env :=
  { env0 with gitShowToplevel := "fatal: not a git repository" }

/-- A string-shaped option value is a str constructor. -/
theorem isString_eq (x : JSVal) (h : isString x = true) : ∃ s, x = .str s := by
  cases x <;> first | exact ⟨_, rfl⟩ | exact absurd h (by simp [isString])

/-- An undefined-shaped option value is the undef constructor. -/
theorem isUndef_eq (x : JSVal) (h : isUndef x = true) : x = .undef := by
  cases x <;> first | rfl | exact absurd h (by simp [isUndef])

/-- C7: when the git strategy is requested, the constructor itself runs
the git probes and fails with the environment errors, so no helper value
(and hence no filter call) ever comes into being: a non-usage answer from
bare git fails as git-not-installed, and a fatal answer from rev-parse
--show-toplevel fails as not-a-repository. -/
theorem git_construct_probes_eagerly (env : Env) (o : RawOptions)
    (hkey : isString o.key = true)
    (hfile : (isUndef o.file || isString o.file) = true)
    (hstrat : o.strategy = .str "git") :
    (strStartsWith env.gitNoArgs "usage:" = false →
      construct env o = .error .gitNotInstalled) ∧
    (strStartsWith env.gitNoArgs "usage:" = true →
      strStartsWith env.gitShowToplevel "fatal:" = true →
      construct env o = .error .notARepository) := by
  obtain ⟨ks, hks⟩ := isString_eq o.key hkey
  constructor
  · intro h1
    unfold construct
    rcases Bool.or_eq_true_iff.mp hfile with hf | hf
    · rw [hks, isUndef_eq o.file hf, hstrat]
      simp [isString, isUndef, strVal, h1]
    · obtain ⟨fs, hfs⟩ := isString_eq o.file hf
      rw [hks, hfs, hstrat]
      simp [isString, isUndef, strVal, h1]
  · intro h1 h2
    unfold construct
    rcases Bool.or_eq_true_iff.mp hfile with hf | hf
    · rw [hks, isUndef_eq o.file hf, hstrat]
      simp [isString, isUndef, strVal, h1, h2]
    · obtain ⟨fs, hfs⟩ := isString_eq o.file hf
      rw [hks, hfs, hstrat]
      simp [isString, isUndef, strVal, h1, h2]

/-- Witness for C7: both probe failures at concrete environments. -/
theorem git_construct_probes_eagerly_witness :
    construct envNoGit gitOpts = .error .gitNotInstalled ∧
    construct envNoRepo gitOpts = .error .notARepository :=
  ⟨(git_construct_probes_eagerly envNoGit gitOpts rfl rfl rfl).1 (by decide),
    (git_construct_probes_eagerly envNoRepo gitOpts rfl rfl rfl).2
      (by decide) (by decide)⟩

/-- The changed-path list of the git branch on a valid marker: the split
diff lines with the repository root prefixed. -/
def gitChangeList (env : Env) (commitHash : String) : List String :=
  (splitGitLines (env.gitDiff commitHash)).map
    (fun x => env.gitShowToplevel ++ "/" ++ x)

theorem mmSome_iff (env : Env) (paths patterns : List String) :
    mmSome env paths patterns = true ↔
      ∃ p ∈ paths, ∃ pat ∈ patterns, env.isMatch p pat = true := by
  simp [mmSome, List.any_eq_true]

theorem timeAllFired_iff (env : Env) (triggerAll : List String) (t : Nat) :
    timeAllFired env triggerAll t = true ↔
      ∃ p ∈ triggerAll, ∃ f ∈ env.globSync p, t < env.mtime f := by
  simp [timeAllFired, List.any_eq_true]

/-- A concrete environment realizing the all-activating example of the
specification: the diff since the marker is file2.txt and the pattern
joined below the repository root matches exactly that changed path. -/
def envAllExample : Env :=
  { env0 with
    stateOf := fun _ => .ok [("k", "somehash")]
    gitDiff := fun _ => "file2.txt"
    isMatch := fun p pat => pat = "/repo/**/*2*" && p = "/repo/file2.txt" }

/-- A concrete helper with one all-activating trigger rule. -/
def helperAllExample : Helper :=
  { file := ".incremental"
    key := "k"
    strategy := .git
    triggers := [.single "**/*2*"]
    triggersCwd := "/repo"
    startedAt := 5 }

/-- C3: with a present marker, as soon as any changed path matches an
all-activating trigger source pattern the whole candidate list comes
back, whatever the some-activating rules are (the conclusion holds for
every pair-rule configuration, so no some-activating rule can influence
it): the git branch tests the prefixed diff paths, the time branch tests
the globbed files of each all-activating pattern against the marker
instant. -/
theorem all_activating_short_circuit (env : Env) (h : Helper) (files : List String)
    (m : List (String × String)) (marker : String)
    (hstate : env.stateOf h.file = .ok m)
    (hmark : lookupTruthy m h.key = some marker) :
    (h.strategy = .git →
      strStartsWith (env.gitDiff marker) "fatal:" = false →
      (∃ c ∈ gitChangeList env marker,
        ∃ p ∈ (buildTriggers env h.triggersCwd h.triggers).2,
          env.isMatch c p = true) →
      Helper.filterFiles env h files = .ok files) ∧
    (h.strategy = .time →
      (∃ p ∈ (buildTriggers env h.triggersCwd h.triggers).2,
        ∃ f ∈ env.globSync p, env.parseDate marker < env.mtime f) →
      Helper.filterFiles env h files = .ok files) := by
  constructor
  · intro hstrat hnofatal hfired
    unfold Helper.filterFiles
    rw [hstate, hstrat]
    have hfb : mmSome env ((splitGitLines (env.gitDiff marker)).map
        (fun x => env.gitShowToplevel ++ "/" ++ x))
        (buildTriggers env h.triggersCwd h.triggers).2 = true := by
      rw [mmSome_iff]
      simpa [gitChangeList] using hfired
    simp [loadState, hmark, getGitChangesSince, hnofatal, hfb]
  · intro hstrat hfired
    unfold Helper.filterFiles
    rw [hstate, hstrat]
    have hfb : timeAllFired env (buildTriggers env h.triggersCwd h.triggers).2
        (env.parseDate marker) = true := by
      rw [timeAllFired_iff]
      exact hfired
    simp [loadState, hmark, hfb]

/-- Witness for C3: the all-activating example of the specification: the
diff holds file2.txt and the rule pattern matches it, returns all three
candidates. -/
theorem all_activating_short_circuit_witness :
    Helper.filterFiles envAllExample helperAllExample
      ["/repo/file1.txt", "/repo/file2.txt", "/repo/file3.txt"] =
      .ok ["/repo/file1.txt", "/repo/file2.txt", "/repo/file3.txt"] :=
  (all_activating_short_circuit envAllExample helperAllExample
      ["/repo/file1.txt", "/repo/file2.txt", "/repo/file3.txt"]
      [("k", "somehash")] "somehash" rfl (by decide)).1
    rfl (by decide) (by decide)

/-- Reduction of filter on the git branch with a present marker, a valid
reference and no all-activating hit: the result is the candidates
filtered to the change set plus the triggered set. -/
theorem filterFiles_git_eq (env : Env) (h : Helper) (files : List String)
    (m : List (String × String)) (marker : String)
    (hstrat : h.strategy = .git)
    (hstate : env.stateOf h.file = .ok m)
    (hmark : lookupTruthy m h.key = some marker)
    (hnofatal : strStartsWith (env.gitDiff marker) "fatal:" = false)
    (hfb : mmSome env (gitChangeList env marker)
      (buildTriggers env h.triggersCwd h.triggers).2 = false) :
    Helper.filterFiles env h files =
      .ok (files.filter (fun x =>
        decide (x ∈ gitChangeList env marker) ||
        decide (x ∈ gitTriggered env files (gitChangeList env marker)
          (buildTriggers env h.triggersCwd h.triggers).1))) := by
  unfold Helper.filterFiles
  rw [hstate, hstrat]
  rw [gitChangeList] at hfb
  simp [loadState, hmark, getGitChangesSince, hnofatal, hfb, gitChangeList]

/-- Reduction of filter on the time branch with a present marker and no
all-activating hit: the result is the candidates filtered to the
modified ones plus the triggered set. -/
theorem filterFiles_time_eq (env : Env) (h : Helper) (files : List String)
    (m : List (String × String)) (marker : String)
    (hstrat : h.strategy = .time)
    (hstate : env.stateOf h.file = .ok m)
    (hmark : lookupTruthy m h.key = some marker)
    (hfb : timeAllFired env (buildTriggers env h.triggersCwd h.triggers).2
      (env.parseDate marker) = false) :
    Helper.filterFiles env h files =
      .ok (files.filter (fun x =>
        decide (env.parseDate marker < env.mtime x) ||
        decide (x ∈ timeTriggered env files (env.parseDate marker)
          (buildTriggers env h.triggersCwd h.triggers).1))) := by
  unfold Helper.filterFiles
  rw [hstate, hstrat]
  simp [loadState, hmark, hfb]

/-- Membership in the git-branch triggered set: some deduplicated entry
has a source pattern matching a changed path, and the file is a
candidate matching one of the target patterns of the entry. -/
theorem mem_gitTriggered (env : Env) (files changes : List String)
    (entries : List (String × List String)) (x : String) :
    x ∈ gitTriggered env files changes entries ↔
      ∃ e ∈ entries, (∃ c ∈ changes, env.isMatch c e.1 = true) ∧
        x ∈ files ∧ ∃ t ∈ e.2, env.isMatch x t = true := by
  have haux : ∀ (es : List (String × List String)) (acc : List String),
      (x ∈ es.foldl (fun acc e =>
        if changes.any (fun c => env.isMatch c e.1) then acc ++ mmFilter env files e.2
        else acc) acc) ↔
      x ∈ acc ∨ ∃ e ∈ es, (∃ c ∈ changes, env.isMatch c e.1 = true) ∧
        x ∈ files ∧ ∃ t ∈ e.2, env.isMatch x t = true := by
    intro es
    induction es with
    | nil => intro acc; simp
    | cons e rest ih =>
      intro acc
      simp only [List.foldl_cons]
      by_cases hc : changes.any (fun c => env.isMatch c e.1) = true
      · rw [if_pos hc, ih]
        have hcex : ∃ c ∈ changes, env.isMatch c e.1 = true := by
          simpa [List.any_eq_true] using hc
        simp only [List.mem_append, mmFilter, List.mem_filter,
          List.any_eq_true, List.mem_cons]
        constructor
        · rintro (⟨hx | ⟨hxf, t, ht, hmt⟩⟩ | ⟨e2, he2, hfire, hxf, t, ht, hmt⟩)
          · exact Or.inl hx
          · exact Or.inr ⟨e, Or.inl rfl, hcex, hxf, t, ht, hmt⟩
          · exact Or.inr ⟨e2, Or.inr he2, hfire, hxf, t, ht, hmt⟩
        · rintro (hx | ⟨e2, he2 | he2, hfire, hxf, t, ht, hmt⟩)
          · exact Or.inl (Or.inl hx)
          · subst he2
            exact Or.inl (Or.inr ⟨hxf, t, ht, hmt⟩)
          · exact Or.inr ⟨e2, he2, hfire, hxf, t, ht, hmt⟩
      · rw [if_neg hc, ih]
        have hnc : ¬ ∃ c ∈ changes, env.isMatch c e.1 = true := by
          simpa [List.any_eq_true] using hc
        simp only [List.mem_cons]
        constructor
        · rintro (hx | ⟨e2, he2, hfire, rest2⟩)
          · exact Or.inl hx
          · exact Or.inr ⟨e2, Or.inr he2, hfire, rest2⟩
        · rintro (hx | ⟨e2, he2 | he2, hfire, rest2⟩)
          · exact Or.inl hx
          · subst he2
            exact absurd hfire hnc
          · exact Or.inr ⟨e2, he2, hfire, rest2⟩
  rw [gitTriggered, haux]
  simp

/-- A concrete environment realizing the some-activating example of the
specification: the diff since the marker is file2.txt, the source
pattern matches that changed path and the target pattern matches
file3.txt. -/
def envSomeExample : Env :=
  { env0 with
    stateOf := fun _ => .ok [("k", "somehash")]
    gitDiff := fun _ => "file2.txt"
    isMatch := fun p pat =>
      (pat = "/repo/**/*2*" && p = "/repo/file2.txt") ||
      (pat = "/repo/**/*3*" && p = "/repo/file3.txt") }

/-- A concrete helper with one some-activating trigger rule. -/
def helperSomeExample : Helper :=
  { file := ".incremental"
    key := "k"
    strategy := .git
    triggers := [.pair "**/*2*" "**/*3*"]
    triggersCwd := "/repo"
    startedAt := 5 }

/-- C2: with a present marker and no all-activating hit, filter returns
exactly the candidates that are in the computed change set or in the
triggered extra-inclusion set, as an order-preserving sublist of the
candidates; the triggered set holds exactly the candidates matching a
target pattern of a fired source entry, and the result always contains
every candidate of the change set. -/
theorem filter_is_changed_union_triggered (env : Env) (h : Helper)
    (files : List String) (m : List (String × String)) (marker : String)
    (hstate : env.stateOf h.file = .ok m)
    (hmark : lookupTruthy m h.key = some marker) :
    (h.strategy = .git →
      strStartsWith (env.gitDiff marker) "fatal:" = false →
      (¬ ∃ c ∈ gitChangeList env marker,
        ∃ p ∈ (buildTriggers env h.triggersCwd h.triggers).2,
          env.isMatch c p = true) →
      Helper.filterFiles env h files =
        .ok (files.filter (fun x =>
          decide (x ∈ gitChangeList env marker) ||
          decide (x ∈ gitTriggered env files (gitChangeList env marker)
            (buildTriggers env h.triggersCwd h.triggers).1))) ∧
      (files.filter (fun x =>
          decide (x ∈ gitChangeList env marker) ||
          decide (x ∈ gitTriggered env files (gitChangeList env marker)
            (buildTriggers env h.triggersCwd h.triggers).1))).Sublist files ∧
      (∀ x, x ∈ gitTriggered env files (gitChangeList env marker)
          (buildTriggers env h.triggersCwd h.triggers).1 ↔
        ∃ e ∈ (buildTriggers env h.triggersCwd h.triggers).1,
          (∃ c ∈ gitChangeList env marker, env.isMatch c e.1 = true) ∧
          x ∈ files ∧ ∃ t ∈ e.2, env.isMatch x t = true) ∧
      (∀ x ∈ files, x ∈ gitChangeList env marker →
        x ∈ files.filter (fun x =>
          decide (x ∈ gitChangeList env marker) ||
          decide (x ∈ gitTriggered env files (gitChangeList env marker)
            (buildTriggers env h.triggersCwd h.triggers).1)))) ∧
    (h.strategy = .time →
      (¬ ∃ p ∈ (buildTriggers env h.triggersCwd h.triggers).2,
        ∃ f ∈ env.globSync p, env.parseDate marker < env.mtime f) →
      Helper.filterFiles env h files =
        .ok (files.filter (fun x =>
          decide (env.parseDate marker < env.mtime x) ||
          decide (x ∈ timeTriggered env files (env.parseDate marker)
            (buildTriggers env h.triggersCwd h.triggers).1))) ∧
      (files.filter (fun x =>
          decide (env.parseDate marker < env.mtime x) ||
          decide (x ∈ timeTriggered env files (env.parseDate marker)
            (buildTriggers env h.triggersCwd h.triggers).1))).Sublist files ∧
      (∀ x ∈ files, env.parseDate marker < env.mtime x →
        x ∈ files.filter (fun x =>
          decide (env.parseDate marker < env.mtime x) ||
          decide (x ∈ timeTriggered env files (env.parseDate marker)
            (buildTriggers env h.triggersCwd h.triggers).1)))) := by
  constructor
  · intro hstrat hnofatal hnofired
    have hfb : mmSome env (gitChangeList env marker)
        (buildTriggers env h.triggersCwd h.triggers).2 = false := by
      rw [Bool.eq_false_iff]
      intro hcontra
      exact hnofired ((mmSome_iff env _ _).mp hcontra)
    refine ⟨filterFiles_git_eq env h files m marker hstrat hstate hmark hnofatal hfb,
      List.filter_sublist files, fun x => mem_gitTriggered env files _ _ x, ?_⟩
    intro x hxf hxc
    rw [List.mem_filter]
    exact ⟨hxf, by simp [hxc]⟩
  · intro hstrat hnofired
    have hfb : timeAllFired env (buildTriggers env h.triggersCwd h.triggers).2
        (env.parseDate marker) = false := by
      rw [Bool.eq_false_iff]
      intro hcontra
      exact hnofired ((timeAllFired_iff env _ _).mp hcontra)
    refine ⟨filterFiles_time_eq env h files m marker hstrat hstate hmark hfb,
      List.filter_sublist files, ?_⟩
    intro x hxf hxc
    rw [List.mem_filter]
    exact ⟨hxf, by simp [hxc]⟩

/-- Witness for C2: the some-activating example of the specification returns
exactly the changed file2 plus the triggered file3, in candidate
order. -/
theorem filter_is_changed_union_triggered_witness :
    Helper.filterFiles envSomeExample helperSomeExample
      ["/repo/file1.txt", "/repo/file2.txt", "/repo/file3.txt"] =
      .ok ["/repo/file2.txt", "/repo/file3.txt"] := by
  have happ := (filter_is_changed_union_triggered envSomeExample helperSomeExample
      ["/repo/file1.txt", "/repo/file2.txt", "/repo/file3.txt"]
      [("k", "somehash")] "somehash" rfl (by decide)).1
    rfl (by decide) (by decide)
  rw [happ.1]
  rfl

theorem lookupTruthy_of_lookup_some (m : List (String × String)) (k v : String)
    (hl : lookup m k = some v) (hv : v ≠ "") : lookupTruthy m k = some v := by
  simp [lookupTruthy, hl, hv]

/-- A successfully constructed helper carries the construction-time
instant in its startedAt field. -/
theorem construct_startedAt (env : Env) (o : RawOptions) (h : Helper)
    (hc : construct env o = .ok h) : h.startedAt = env.now := by
  unfold construct at hc
  repeat' split at hc
  all_goals cases hc
  all_goals rfl

/-- On the time branch with a present marker, every candidate modified
after the marker instant is in the filter result (whether or not an
all-activating rule fires). -/
theorem mem_filter_time_of_modified (env : Env) (h : Helper)
    (files : List String) (m : List (String × String)) (marker f : String)
    (hstrat : h.strategy = .time)
    (hstate : env.stateOf h.file = .ok m)
    (hmark : lookupTruthy m h.key = some marker)
    (hf : f ∈ files)
    (hmod : env.parseDate marker < env.mtime f) :
    ∃ out, Helper.filterFiles env h files = .ok out ∧ f ∈ out := by
  by_cases hfb : timeAllFired env (buildTriggers env h.triggersCwd h.triggers).2
      (env.parseDate marker) = true
  · refine ⟨files, ?_, hf⟩
    unfold Helper.filterFiles
    rw [hstate, hstrat]
    simp [loadState, hmark, hfb]
  · have hfb2 : timeAllFired env (buildTriggers env h.triggersCwd h.triggers).2
        (env.parseDate marker) = false := Bool.eq_false_iff.mpr hfb
    refine ⟨_, filterFiles_time_eq env h files m marker hstrat hstate hmark hfb2, ?_⟩
    rw [List.mem_filter]
    exact ⟨hf, by simp [hmod]⟩

/-- The options of a plain time-strategy construction. -/
def timeOpts : RawOptions :=
  { key := .str "k"
    file := .undef
    strategy := .undef
    triggers := .undef
    triggersCwd := .undef }

/-- The helper that construct yields on env0 and timeOpts. -/
def helperTime5 : Helper :=
  { file := ".incremental"
    key := "k"
    strategy := .time
    triggers := []
    triggersCwd := "/repo"
    startedAt := 5 }

/-- The environment of the first-cycle close(): a state file holding
only an entry for another key, and a date serialization for the
construction instant. -/
def envClose : Env :=
  { env0 with
    stateOf := fun _ => .ok [("b", "x")]
    dateToJson := fun n => if n = 5 then "T5" else "" }

/-- The environment of the next cycle: the state file written by close,
the inverse date parse, and a tracked file modified after the
construction instant. -/
def envNext : Env :=
  { env0 with
    stateOf := fun _ => .ok [("b", "x"), ("k", "T5")]
    parseDate := fun s => if s = "T5" then 5 else 0
    mtime := fun _ => 7 }

/-- C5: the marker persisted by close() under the time strategy is the
instant captured at construction (startedAt), not the instant close()
runs — close() takes no clock reading at all, it serializes startedAt;
consequently on the next cycle a fresh helper for the same key whose
state file holds that marker reports as changed every candidate whose
modification time is after the construction instant. -/
theorem time_marker_is_construction_instant
    (cenv env env2 : Env) (o : RawOptions) (h h2 : Helper)
    (files : List String) (f : String) (m : List (String × String))
    (hc : construct cenv o = .ok h)
    (hstrat : h.strategy = .time)
    (hstate : env.stateOf h.file = .ok m) :
    h.startedAt = cenv.now ∧
    ∃ newData, Helper.closeData env h = .ok newData ∧
      lookup newData h.key = some (env.dateToJson h.startedAt) ∧
      (h2.strategy = .time → h2.key = h.key →
        env2.stateOf h2.file = .ok newData →
        env.dateToJson h.startedAt ≠ "" →
        env2.parseDate (env.dateToJson h.startedAt) = h.startedAt →
        f ∈ files → h.startedAt < env2.mtime f →
        ∃ out, Helper.filterFiles env2 h2 files = .ok out ∧ f ∈ out) := by
  refine ⟨construct_startedAt cenv o h hc, setKey m h.key (env.dateToJson h.startedAt), ?_,
    lookup_setKey_self m h.key (env.dateToJson h.startedAt), ?_⟩
  · unfold Helper.closeData
    rw [hstate, hstrat]
    rfl
  · intro h2strat h2key h2state hne hparse hf hmod
    have hmark : lookupTruthy (setKey m h.key (env.dateToJson h.startedAt)) h2.key =
        some (env.dateToJson h.startedAt) := by
      rw [h2key]
      exact lookupTruthy_of_lookup_some _ _ _
        (lookup_setKey_self m h.key (env.dateToJson h.startedAt)) hne
    exact mem_filter_time_of_modified env2 h2 files _ (env.dateToJson h.startedAt) f
      h2strat h2state hmark hf (by rw [hparse]; exact hmod)

/-- Witness for C5: a construction at instant 5, a close() writing T5
next to the entry for key b, and a next-cycle filter on a file with
modification instant 7 reporting it as changed. -/
theorem time_marker_is_construction_instant_witness :
    ∃ out, Helper.filterFiles envNext helperTime5 ["/repo/a.md"] = .ok out ∧
      "/repo/a.md" ∈ out := by
  obtain ⟨-, newData, hclose, hlook, hnext⟩ :=
    time_marker_is_construction_instant env0 envClose envNext timeOpts
      helperTime5 helperTime5 ["/repo/a.md"] "/repo/a.md" [("b", "x")]
      rfl rfl rfl
  have hev : Helper.closeData envClose helperTime5 = .ok [("b", "x"), ("k", "T5")] := rfl
  rw [hclose] at hev
  cases hev
  exact hnext rfl rfl rfl (by decide) (by decide) (by decide) (by decide)

/-- A trigger element passes validation exactly when it is a two-element
array or a string; badTriggerElem is the negation of that shape test. -/
theorem badTriggerElem_eq_not (x : JSVal) :
    badTriggerElem x =
      !((isArr x && ((arrElems x).length == 2)) || isString x) := by
  simp [badTriggerElem, Bool.not_or, Bool.not_and]

/-- With valid key, file and triggersCwd options and the strategy left
undefined, the constructor reduces to the triggers shape test. -/
theorem construct_triggers_reduce (env : Env) (o : RawOptions)
    (hkey : isString o.key = true)
    (hfile : (isUndef o.file || isString o.file) = true)
    (hstrat : o.strategy = .undef)
    (hcwd : (isUndef o.triggersCwd || isString o.triggersCwd) = true)
    (htr : isUndef o.triggers = false) :
    construct env o =
      if (!(isArr o.triggers) || (arrElems o.triggers).any badTriggerElem) then
        .error .triggersType
      else
        .ok { key := strVal o.key
              file := if isUndef o.file then ".incremental" else strVal o.file
              strategy := .time
              triggers := (arrElems o.triggers).map toTrigger
              triggersCwd :=
                if isUndef o.triggersCwd then env.processCwd else strVal o.triggersCwd
              startedAt := env.now } := by
  have hC1 : (!(isString o.key)) = false := by rw [hkey]; rfl
  have hC2 : (!(isUndef o.file) && !(isString o.file)) = false := by
    rcases Bool.or_eq_true_iff.mp hfile with hf | hf <;> simp [hf]
  have hC8 : (!(isUndef o.triggersCwd) && !(isString o.triggersCwd)) = false := by
    rcases Bool.or_eq_true_iff.mp hcwd with hcw | hcw <;> simp [hcw]
  have hTr : (!(isUndef o.triggers)) = true := by rw [htr]; rfl
  have hU : isUndef JSVal.undef = true := rfl
  unfold construct
  rw [hstrat]
  simp [hC1, hC2, hC8, hTr, hU]

/-- The triggers option passes the shape test exactly when it is an
array whose every element is a two-element array or a string. -/
theorem goodTriggers_iff (tr : JSVal) :
    (!(isArr tr) || (arrElems tr).any badTriggerElem) = false ↔
      (isArr tr = true ∧ ∀ x ∈ arrElems tr,
        ((isArr x && ((arrElems x).length == 2)) || isString x) = true) := by
  rw [Bool.or_eq_false_iff, List.any_eq_false]
  constructor
  · rintro ⟨h1, h2⟩
    refine ⟨by simpa using h1, fun x hx => ?_⟩
    have hbx := h2 x hx
    rw [badTriggerElem_eq_not] at hbx
    have hbx2 : (!((isArr x && ((arrElems x).length == 2)) || isString x)) = false :=
      Bool.eq_false_iff.mpr hbx
    cases hA : isArr x with
    | false =>
      simp [hA] at hbx2
      simp [hbx2]
    | true =>
      by_cases hL : (arrElems x).length = 2
      · simp [hA, hL]
      · simp [hA, hL] at hbx2
        simp [hbx2]
  · rintro ⟨h1, h2⟩
    refine ⟨by simpa using h1, fun x hx => ?_⟩
    rw [badTriggerElem_eq_not]
    simp [h2 x hx]

/-- C8 counterexample: with every other option valid, a callable trigger
element makes construction fail with the triggers TypeError, although
the claim admits a callable as a valid trigger shape. -/
theorem callable_trigger_element_rejected :
    construct env0
      { key := .str "k", file := .undef, strategy := .undef,
        triggers := .arr [.func], triggersCwd := .undef } =
      .error .triggersType := rfl

/-- C8 (amended): every trigger element must be a two-element array or a
single pattern string — a callable element is rejected like any other
shape; exactly the arrays whose elements all have one of these two
shapes construct successfully, and every invalid triggers option fails
with the TypeError naming the triggers option. -/
theorem trigger_shapes_validated (env : Env) (o : RawOptions)
    (hkey : isString o.key = true)
    (hfile : (isUndef o.file || isString o.file) = true)
    (hstrat : o.strategy = .undef)
    (hcwd : (isUndef o.triggersCwd || isString o.triggersCwd) = true)
    (htr : isUndef o.triggers = false) :
    ((∃ hres, construct env o = .ok hres) ↔
      (isArr o.triggers = true ∧ ∀ x ∈ arrElems o.triggers,
        ((isArr x && ((arrElems x).length == 2)) || isString x) = true)) ∧
    ((¬ ∃ hres, construct env o = .ok hres) →
      construct env o = .error .triggersType) := by
  have hred := construct_triggers_reduce env o hkey hfile hstrat hcwd htr
  by_cases hbad : (!(isArr o.triggers) || (arrElems o.triggers).any badTriggerElem) = true
  · rw [if_pos hbad] at hred
    constructor
    · constructor
      · rintro ⟨hres, hcon⟩
        rw [hred] at hcon
        cases hcon
      · intro hgood
        have := (goodTriggers_iff o.triggers).mpr hgood
        rw [hbad] at this
        cases this
    · intro _
      exact hred
  · have hfalse : (!(isArr o.triggers) || (arrElems o.triggers).any badTriggerElem) = false :=
      Bool.eq_false_iff.mpr hbad
    rw [if_neg hbad] at hred
    constructor
    · constructor
      · intro _
        exact (goodTriggers_iff o.triggers).mp hfalse
      · intro _
        exact ⟨_, hred⟩
    · intro hno
      exact absurd ⟨_, hred⟩ hno

/-- A concrete options object with a valid pair-plus-string triggers
array. -/
def goodTriggerOpts : RawOptions :=
  { key := .str "k"
    file := .undef
    strategy := .undef
    triggers := .arr [.arr [.str "a", .str "b"], .str "p"]
    triggersCwd := .undef }

/-- A concrete options object with a wrongly sized trigger array
element. -/
def badTriggerOpts : RawOptions :=
  { key := .str "k"
    file := .undef
    strategy := .undef
    triggers := .arr [.arr [.str "a"]]
    triggersCwd := .undef }

/-- Witness for C8 (amended): a pair-plus-string triggers array
constructs, a wrongly sized pair fails with the triggers TypeError. -/
theorem trigger_shapes_validated_witness :
    (∃ hres, construct env0 goodTriggerOpts = .ok hres) ∧
    construct env0 badTriggerOpts = .error .triggersType :=
  ⟨(trigger_shapes_validated env0 goodTriggerOpts rfl rfl rfl rfl rfl).1.mpr
      (by constructor
          · rfl
          · intro x hx
            fin_cases hx <;> rfl),
    (trigger_shapes_validated env0 badTriggerOpts rfl rfl rfl rfl rfl).2
      (by rintro ⟨hres, hcon⟩
          rw [show construct env0 badTriggerOpts = .error .triggersType from rfl] at hcon
          cases hcon)⟩

end StaticPages
